import Mathlib

/-!
Shallow embedding of the two core algorithms of `src/scrape.ts`
(columbia-courses): table normalization (the body of `scrape` that turns a
cell matrix into field records, lines 147-196) and course-link discovery
(`discoverCourseLinks`, lines 31-90).

JS strings become Lean `String`; a JS object used as a string-keyed record
becomes an association list with JS assignment semantics (first insertion
wins position, last assignment wins value); a JS `Set` becomes
first-occurrence deduplication.  `new URL(href, origin).toString()` is a
platform primitive, modelled as an abstract parameter
`resolve : String → Option String` (`none` = the constructor threw).
-/

/-- One field record: a JS object used as a string → string map,
kept as an association list in insertion order. -/
abbrev FieldRec := List (String × String)

/-- `hasPrefixCh p s` : the char list `p` is a prefix of `s`. -/
def hasPrefixCh : List Char → List Char → Bool
  | [], _ => true
  | _ :: _, [] => false
  | c :: p, d :: s => c == d && hasPrefixCh p s

/-- `hasInfixCh p s` : the char list `p` occurs contiguously in `s`. -/
def hasInfixCh (p : List Char) : List Char → Bool
  | [] => hasPrefixCh p []
  | d :: s => hasPrefixCh p (d :: s) || hasInfixCh p s

/-- Model of JS `s.includes(pat)` (substring containment; an empty
pattern is contained in every string, as in JS). -/
def jsIncludes (s pat : String) : Bool := hasInfixCh pat.data s.data

/-- Model of JS `s.toLowerCase()` (character-wise lowercasing; agrees with
JS on the ASCII labels this program compares). -/
def jsToLower (s : String) : String := String.mk (s.data.map Char.toLower)

/-- JS object assignment `o[k] = v`: if the key is present its value is
updated in place, otherwise the pair is appended. -/
def objInsert (o : FieldRec) (k v : String) : FieldRec :=
  if o.any (fun p => p.1 == k) then
    o.map (fun p => if p.1 == k then (k, v) else p)
  else o ++ [(k, v)]

/-- Keys of a record, in insertion order. -/
def keysOf (o : FieldRec) : List String := o.map Prod.fst

/-- Model of `Array.from(new Set(l))`: deduplication keeping the first
occurrence of each element, preserving order. -/
def jsSetFrom (l : List String) : List String :=
  l.foldl (fun acc u => if u ∈ acc then acc else acc ++ [u]) []

/-! ### Table normalization (`scrape`, src/scrape.ts lines 147-196) -/

/-- Line 157: `const colCount = Math.max(...matrix.map((r) => r.length));`.
For an empty matrix JS yields `-Infinity` while this model yields `0`;
both values select no layout branch, so the model agrees with the code
on every input. -/
def colCount (matrix : List (List String)) : Nat :=
  (matrix.map List.length).foldl max 0

/-- Lines 158-162: pad/truncate every row to `colCount` cells
(`r.slice(0, colCount)` followed by pushes of `''`). -/
def normalizeMatrix (matrix : List (List String)) : List (List String) :=
  matrix.map (fun r =>
    let copy := r.take (colCount matrix)
    copy ++ List.replicate (colCount matrix - copy.length) "")

/-- Lines 168-177 (2-column branch, first-row special case):
`if (rightTop.includes('call number') && leftTop) rows.push({ 'Call Number': leftTop })`
where `leftTop = firstRow[0] || ''` and `rightTop = (firstRow[1] || '').toLowerCase()`. -/
def twoColFirst (norm : List (List String)) : List FieldRec :=
  let firstRow := norm.headD []
  let leftTop := firstRow.getD 0 ""
  let rightTop := jsToLower (firstRow.getD 1 "")
  if jsIncludes rightTop "call number" = true ∧ leftTop ≠ "" then
    [[("Call Number", leftTop)]]
  else []

/-- Lines 179-186 (2-column branch, loop over rows 1..):
`const value = norm[i][1] || ''; const label = norm[i][0] || '';
if (label) rows.push({ [label]: value })`. -/
def twoColRest (norm : List (List String)) : List FieldRec :=
  (norm.drop 1).foldl (fun rows r =>
    let value := r.getD 1 ""
    let label := r.getD 0 ""
    if label ≠ "" then rows ++ [[(label, value)]] else rows) []

/-- Line 189: `const headers = norm[0].map((h, idx) => h || ` col_${idx + 1} `);`
(an empty header cell is replaced by its 1-indexed positional name). -/
def headerNames (row : List String) : List String :=
  row.mapIdx (fun idx h => if h = "" then "col_" ++ toString (idx + 1) else h)

/-- Lines 192-194: `const obj = {}; headers.forEach((h, idx) => (obj[h] = r[idx] || ''));`. -/
def buildObj (headers : List String) (r : List String) : FieldRec :=
  headers.enum.foldl (fun obj p => objInsert obj p.2 (r.getD p.1 "")) []

/-- Lines 188-196 (header-table branch): one record per row after the
first, built from the (placeholder-substituted) header names of row 0. -/
def headerRecords (norm : List (List String)) : List FieldRec :=
  let headers := headerNames (norm.headD [])
  (norm.drop 1).map (fun r => buildObj headers r)

/-- Lines 147-196: the whole table-normalization step of `scrape`.
`rows = []`; if `colCount === 2` run the label/value branch (special-cased
first row, then the loop); `else if (norm.length >= 2)` run the
header-table branch; otherwise no records. -/
def tableRows (matrix : List (List String)) : List FieldRec :=
  let norm := normalizeMatrix matrix
  if colCount matrix = 2 then twoColFirst norm ++ twoColRest norm
  else if 2 ≤ norm.length then headerRecords norm
  else []

/-- A matrix is rectangular with `c` columns when every row has `c` cells. -/
def Rectangular (c : Nat) (matrix : List (List String)) : Prop :=
  ∀ r ∈ matrix, r.length = c

instance (c : Nat) (matrix : List (List String)) :
    Decidable (Rectangular c matrix) :=
  inferInstanceAs (Decidable (∀ r ∈ matrix, r.length = c))

/-! ### Link discovery (`discoverCourseLinks`, src/scrape.ts lines 31-90) -/

/-- Line 38: the href filter
`href.includes('/subj/COMS/') && href.includes(` -${tCode}- `)`. -/
def linkFilter (tCode href : String) : Bool :=
  jsIncludes href "/subj/COMS/" && jsIncludes href ("-" ++ tCode ++ "-")

/-- Line 43: `....toString().split('#')[0]` — everything before the first
`'#'` of the resolved URL. -/
def stripFragment (u : String) : String :=
  String.mk (u.data.takeWhile (fun c => c ≠ '#'))

/-- Lines 33-51: the extraction predicate `grab` run inside one browsing
context.  `resolve` models `new URL(href, location.origin).toString()`
(`none` = the constructor threw, caught and mapped to `''`, which
`filter(Boolean)` then drops); the result is deduplicated by `new Set`. -/
def grab (resolve : String → Option String) (tCode : String)
    (hrefs : List String) : List String :=
  let urls := hrefs.filter (fun href => linkFilter tCode href)
  jsSetFrom ((urls.map (fun href =>
    match resolve href with
    | some u => stripFragment u
    | none => "")).filter (fun s => s ≠ ""))

/-- One browsing context, as `grab` sees it: `none` when evaluating in the
context throws (lines 54 and 76-80 catch this), otherwise its own URL
resolver together with the hrefs its DOM exposes. -/
abbrev Ctx := Option ((String → Option String) × List String)

/-- Lines 54 and 71-81: run `grab` in one context; a failed evaluation
contributes the empty list instead of aborting. -/
def runCtx (tCode : String) (ctx : Ctx) : List String :=
  match ctx with
  | some c => grab c.1 tCode c.2
  | none => []

/-- Lines 54-89: links from the main page and from every frame, flattened
and deduplicated (`Array.from(new Set([...fromMain, ...fromFrames]))`). -/
def discoverCourseLinks (tCode : String) (mainCtx : Ctx)
    (frameCtxs : List Ctx) : List String :=
  jsSetFrom (runCtx tCode mainCtx ++ (frameCtxs.map (runCtx tCode)).flatten)

/-- Row-record observer for the 2-column loop: what the loop body does to
one row (emit `{left: right}` when the left cell is non-empty). -/
def twoColRow (r : List String) : Option FieldRec :=
  if r.getD 0 "" ≠ "" then some [(r.getD 0 "", r.getD 1 "")] else none

/-- Reading `obj[k]` from a record (used to observe records). -/
def jsLookup (o : FieldRec) (k : String) : Option String :=
  (o.find? (fun p => p.1 == k)).map Prod.snd

/-! ### General lemmas about the JS-modelling helpers -/

lemma jsSetFrom_go_mem (l : List String) :
    ∀ (acc : List String) (a : String),
      a ∈ l.foldl (fun acc u => if u ∈ acc then acc else acc ++ [u]) acc ↔
        a ∈ acc ∨ a ∈ l := by
  induction l with
  | nil => simp
  | cons x t ih =>
    intro acc a
    simp only [List.foldl_cons]
    by_cases hx : x ∈ acc
    · simp [hx, ih]
      constructor
      · rintro (h | h)
        · exact Or.inl h
        · exact Or.inr (Or.inr h)
      · rintro (h | h | h)
        · exact Or.inl h
        · exact Or.inl (h ▸ hx)
        · exact Or.inr h
    · simp [hx, ih, List.mem_append]
      tauto
  
lemma mem_jsSetFrom {l : List String} {a : String} :
    a ∈ jsSetFrom l ↔ a ∈ l := by
  unfold jsSetFrom
  rw [jsSetFrom_go_mem]
  simp

lemma jsSetFrom_go_nodup (l : List String) :
    ∀ acc : List String, acc.Nodup →
      (l.foldl (fun acc u => if u ∈ acc then acc else acc ++ [u]) acc).Nodup := by
  induction l with
  | nil => intro acc h; simpa using h
  | cons x t ih =>
    intro acc h
    simp only [List.foldl_cons]
    by_cases hx : x ∈ acc
    · simp only [hx, if_pos]
      exact ih acc h
    · simp only [hx, if_neg, if_false]
      refine ih _ ?_
      rw [List.nodup_append]
      refine ⟨h, List.nodup_singleton x, ?_⟩
      intro a ha hax
      simp only [List.mem_singleton] at hax
      exact hx (hax ▸ ha)

lemma jsSetFrom_nodup (l : List String) : (jsSetFrom l).Nodup :=
  jsSetFrom_go_nodup l [] List.nodup_nil

/-! ### Lemmas about the table normalizer -/

lemma colCount_go_const {c : Nat} :
    ∀ l : List Nat, (∀ x ∈ l, x = c) → l.foldl max c = c := by
  intro l
  induction l with
  | nil => intro _; rfl
  | cons x t ih =>
    intro h
    have hx : x = c := h x (by simp)
    simp only [List.foldl_cons, hx, max_self]
    exact ih fun y hy => h y (by simp [hy])

lemma colCount_of_rect {c : Nat} {m : List (List String)}
    (hne : m ≠ []) (hrect : Rectangular c m) : colCount m = c := by
  unfold colCount
  obtain ⟨r, t, rfl⟩ := List.exists_cons_of_ne_nil hne
  have hr : r.length = c := hrect r (by simp)
  simp only [List.map_cons, List.foldl_cons, hr, Nat.zero_max]
  exact colCount_go_const _ fun x hx => by
    obtain ⟨y, hy, rfl⟩ := List.mem_map.mp hx
    exact hrect y (by simp [hy])

lemma normalizeMatrix_of_rect {c : Nat} {m : List (List String)}
    (hne : m ≠ []) (hrect : Rectangular c m) : normalizeMatrix m = m := by
  unfold normalizeMatrix
  have hc := colCount_of_rect hne hrect
  have : ∀ r ∈ m,
      (r.take (colCount m) ++
        List.replicate (colCount m - (r.take (colCount m)).length) "") = id r := by
    intro r hr
    have hlen : r.length = c := hrect r hr
    rw [hc, ← hlen, List.take_length]
    simp
  rw [List.map_congr_left this, List.map_id]

lemma twoColRest_go (l : List (List String)) :
    ∀ init : List FieldRec,
      l.foldl (fun rows r =>
        let value := r.getD 1 ""
        let label := r.getD 0 ""
        if label ≠ "" then rows ++ [[(label, value)]] else rows) init =
      init ++ l.filterMap twoColRow := by
  induction l with
  | nil => intro init; simp
  | cons r t ih =>
    intro init
    simp only [List.foldl_cons, List.filterMap_cons]
    by_cases h : r.getD 0 "" ≠ ""
    · simp only [h, if_pos, twoColRow, if_pos h]
      rw [ih]
      simp
    · simp only [h, if_false, twoColRow, if_neg h]
      exact ih init

lemma twoColRest_eq_filterMap (norm : List (List String)) :
    twoColRest norm = (norm.drop 1).filterMap twoColRow := by
  unfold twoColRest
  rw [twoColRest_go]
  simp

lemma tableRows_of_rect2 {m : List (List String)}
    (hne : m ≠ []) (hrect : Rectangular 2 m) :
    tableRows m = twoColFirst m ++ twoColRest m := by
  unfold tableRows
  rw [normalizeMatrix_of_rect hne hrect, colCount_of_rect hne hrect]
  simp

/-! ### Claim C1 -/

/-- Claim C1 (code bug, evaluation at the failing input): on the spec's own
example matrix `[["98765", "Call Number"], ["TR 10:10-11:25", "Times"]]`
the code emits `{"TR 10:10-11:25": "Times"}` for row 1 — the loop takes
`label` from `norm[i][0]` (the left cell) and `value` from `norm[i][1]`
(the right cell), contradicting the code's own comment ("right column is
the label, left is the value") and the claimed output
`{"Times": "TR 10:10-11:25"}`. -/
theorem C1_code_eval :
    tableRows [["98765", "Call Number"], ["TR 10:10-11:25", "Times"]] =
      [[("Call Number", "98765")], [("TR 10:10-11:25", "Times")]] ∧
    tableRows [["98765", "Call Number"], ["TR 10:10-11:25", "Times"]] ≠
      [[("Call Number", "98765")], [("Times", "TR 10:10-11:25")]] := by
  constructor
  · rfl
  · decide

/-! ### Claim C2 -/

/-- Claim C2 counterexample: a one-column matrix with two rows is NOT
mapped to the empty record sequence — the header-table guard is only
`norm.length >= 2`, with no column-count test, so `[["a"], ["b"]]`
produces the record `{"a": "b"}`. -/
theorem C2_counterexample :
    tableRows [["a"], ["b"]] = [[("a", "b")]] := by rfl

/-- Claim C2 (amended): a one-column matrix with fewer than two rows, and
a matrix with three or more columns but fewer than two rows, yield the
empty record sequence (a one-column matrix with two or more rows is
instead fed to the header-table branch). -/
theorem C2_amended_holds (m : List (List String))
    (hcol : colCount m = 1 ∨ 3 ≤ colCount m) (hlen : m.length < 2) :
    tableRows m = [] := by
  have hne2 : colCount m ≠ 2 := by
    rcases hcol with h | h <;> omega
  unfold tableRows
  rw [if_neg hne2, if_neg]
  simp only [normalizeMatrix, List.length_map]
  omega

/-- Witness for C2: a single-row 3-column matrix yields no records. -/
theorem C2_witness : tableRows [["a", "b", "c"]] = [] :=
  C2_amended_holds [["a", "b", "c"]] (Or.inr (by decide)) (by decide)

/-! ### Claim C3 -/

/-- Claim C3 counterexample: a zero-column matrix with two rows (two table
rows with no cells) does NOT yield the empty sequence — it enters the
header-table branch (`norm.length >= 2`) with an empty header list and
emits one empty record. -/
theorem C3_counterexample :
    tableRows [[], []] = [[]] := by rfl

/-- Claim C3 (amended): the normalizer is a total function; a matrix with
zero columns yields one empty record per row after the first — in
particular the empty matrix (zero rows), and a zero-column matrix with at
most one row, yield the empty record sequence and no error. -/
theorem C3_amended_holds (m : List (List String)) (hcol : colCount m = 0) :
    tableRows m = List.replicate (m.length - 1) [] := by
  unfold tableRows
  have hnorm : normalizeMatrix m = List.replicate m.length [] := by
    unfold normalizeMatrix
    rw [hcol]
    rw [List.eq_replicate_iff]
    refine ⟨by simp, ?_⟩
    intro b hb
    obtain ⟨r, _, rfl⟩ := List.mem_map.mp hb
    simp
  rw [if_neg (by omega), hnorm]
  by_cases h2 : 2 ≤ m.length
  · rw [if_pos (by simpa using h2)]
    unfold headerRecords
    have hhead : (List.replicate m.length ([] : List String)).headD [] = [] := by
      cases m with
      | nil => rfl
      | cons r t => rfl
    rw [hhead]
    have : headerNames [] = [] := rfl
    rw [this]
    have hdrop : (List.replicate m.length ([] : List String)).drop 1 =
        List.replicate (m.length - 1) [] := by
      rw [List.drop_replicate]
    rw [hdrop, List.map_replicate]
    rfl
  · rw [if_neg (by simpa using h2)]
    have : m.length - 1 = 0 := by omega
    rw [this]
    rfl

/-- Witness for C3: three cell-less rows yield two empty records. -/
theorem C3_witness : tableRows [[], [], []] = [[], []] :=
  (C3_amended_holds [[], [], []] (by decide)).trans (by decide)

/-! ### Claim C4 -/

/-- Claim C4 (confirmed): for a rectangular 2-column matrix, the record
`{"Call Number": <left cell of row 0>}` heads the output exactly when row
0's lowercased right cell contains `"call number"` and row 0's left cell
is non-empty; an empty left cell in row 0 yields no row-0 record at all. -/
theorem C4_holds (m : List (List String)) (hne : m ≠ [])
    (hrect : Rectangular 2 m) :
    ((jsIncludes (jsToLower ((m.headD []).getD 1 "")) "call number" = true ∧
        (m.headD []).getD 0 "" ≠ "") ↔
      tableRows m =
        [("Call Number", (m.headD []).getD 0 "")] :: twoColRest m) ∧
    ((m.headD []).getD 0 "" = "" → tableRows m = twoColRest m) := by
  have ht := tableRows_of_rect2 hne hrect
  by_cases hc : jsIncludes (jsToLower ((m.headD []).getD 1 "")) "call number" = true ∧
      (m.headD []).getD 0 "" ≠ ""
  · have hfirst : twoColFirst m = [[("Call Number", (m.headD []).getD 0 "")]] := by
      unfold twoColFirst
      rw [if_pos hc]
    refine ⟨⟨fun _ => ?_, fun _ => hc⟩, fun h0 => absurd h0 hc.2⟩
    rw [ht, hfirst]
    rfl
  · have hfirst : twoColFirst m = [] := by
      unfold twoColFirst
      rw [if_neg hc]
    have ht' : tableRows m = twoColRest m := by rw [ht, hfirst]; rfl
    refine ⟨⟨fun h => absurd h hc, fun h => ?_⟩, fun _ => ht'⟩
    exfalso
    rw [ht'] at h
    have := congrArg List.length h
    simp at this
  
/-- Witness for C4: a row-0 right cell whose lowercasing contains
"call number" and a non-empty row-0 left cell put the explicit record
first. -/
theorem C4_witness :
    tableRows [["555", "The Call Number"], ["Room", "301"]] =
      [("Call Number", "555")] :: twoColRest [["555", "The Call Number"], ["Room", "301"]] :=
  (C4_holds [["555", "The Call Number"], ["Room", "301"]]
    (by decide) (by decide)).1.mp (by decide)

/-! ### Claim C10 -/

/-- Claim C10 (confirmed): in the 2-column branch every emitted record is
a singleton (exactly one key); the data-row records are exactly the rows
with a non-empty left cell, each mapped to `{left: right}` — so emission
depends only on the left cell, and a row with an empty right cell but a
non-empty left cell still emits a record whose value is the empty
string. -/
theorem C10_holds (m : List (List String)) (hne : m ≠ [])
    (hrect : Rectangular 2 m) :
    (∀ rec ∈ tableRows m, rec.length = 1) ∧
    tableRows m = twoColFirst m ++ (m.drop 1).filterMap twoColRow ∧
    (∀ r ∈ m.drop 1, r.getD 0 "" ≠ "" →
      [(r.getD 0 "", r.getD 1 "")] ∈ tableRows m) := by
  have ht : tableRows m = twoColFirst m ++ (m.drop 1).filterMap twoColRow := by
    rw [tableRows_of_rect2 hne hrect, twoColRest_eq_filterMap]
  refine ⟨?_, ht, ?_⟩
  · intro rec hrec
    rw [ht] at hrec
    rcases List.mem_append.mp hrec with h | h
    · unfold twoColFirst at h
      by_cases hc : jsIncludes (jsToLower ((m.headD []).getD 1 "")) "call number" = true ∧
          (m.headD []).getD 0 "" ≠ ""
      · rw [if_pos hc] at h
        simp at h
        rw [h]
        rfl
      · rw [if_neg hc] at h
        simp at h
    · obtain ⟨r, _, hr⟩ := List.mem_filterMap.mp h
      unfold twoColRow at hr
      by_cases h0 : r.getD 0 "" ≠ ""
      · rw [if_pos h0] at hr
        cases hr
        rfl
      · rw [if_neg h0] at hr
        cases hr
  · intro r hr h0
    rw [ht]
    refine List.mem_append.mpr (Or.inr ?_)
    refine List.mem_filterMap.mpr ⟨r, hr, ?_⟩
    unfold twoColRow
    rw [if_pos h0]

/-- Witness for C10: the row `["v3", ""]` (non-empty left, empty right)
emits the singleton record `{"v3": ""}`. -/
theorem C10_witness :
    [("v3", "")] ∈ tableRows [["v1", "L1"], ["", "skip"], ["v3", ""]] :=
  (C10_holds [["v1", "L1"], ["", "skip"], ["v3", ""]]
    (by decide) (by decide)).2.2 ["v3", ""] (by decide) (by decide)

/-! ### Lemmas about the JS-object construction of the header branch -/

lemma keysOf_objInsert_of_any {o : FieldRec} {k : String} (v : String)
    (h : o.any (fun p => p.1 == k) = true) :
    keysOf (objInsert o k v) = keysOf o := by
  unfold objInsert
  rw [if_pos h]
  unfold keysOf
  rw [List.map_map]
  refine List.map_congr_left ?_
  intro p _
  by_cases hp : (p.1 == k) = true
  · simp only [Function.comp_apply, hp, if_pos]
    exact (eq_of_beq hp).symm
  · simp only [Function.comp_apply, hp]
    rfl

lemma keysOf_objInsert_of_not_any {o : FieldRec} {k : String} (v : String)
    (h : o.any (fun p => p.1 == k) = false) :
    keysOf (objInsert o k v) = keysOf o ++ [k] := by
  unfold objInsert
  rw [if_neg (by simp [h]), keysOf, List.map_append]
  rfl

lemma mem_keysOf_objInsert {o : FieldRec} {k v a : String} :
    a ∈ keysOf (objInsert o k v) ↔ a ∈ keysOf o ∨ a = k := by
  cases hany : o.any (fun p => p.1 == k) with
  | true =>
    rw [keysOf_objInsert_of_any v hany]
    obtain ⟨p, hp, hpk⟩ := List.any_eq_true.mp hany
    have hk : k ∈ keysOf o := by
      rw [← eq_of_beq hpk]
      exact List.mem_map.mpr ⟨p, hp, rfl⟩
    constructor
    · exact Or.inl
    · rintro (h | rfl)
      · exact h
      · exact hk
  | false =>
    rw [keysOf_objInsert_of_not_any v hany]
    simp

lemma nodup_keysOf_objInsert {o : FieldRec} {k v : String}
    (h : (keysOf o).Nodup) : (keysOf (objInsert o k v)).Nodup := by
  cases hany : o.any (fun p => p.1 == k) with
  | true => rw [keysOf_objInsert_of_any v hany]; exact h
  | false =>
    rw [keysOf_objInsert_of_not_any v hany]
    rw [List.nodup_append]
    refine ⟨h, List.nodup_singleton k, ?_⟩
    intro a ha hak
    simp only [List.mem_singleton] at hak
    subst hak
    obtain ⟨p, hp, rfl⟩ := List.mem_map.mp ha
    have := List.any_eq_false.mp hany p hp
    simp at this

lemma find?_update_eq {o : List (String × String)} {k : String} (v : String) :
    (o.map (fun p => if p.1 == k then (k, v) else p)).find? (fun p => p.1 == k) =
      (o.find? (fun p => p.1 == k)).map (fun _ => (k, v)) := by
  induction o with
  | nil => rfl
  | cons p t ih =>
    cases hp : (p.1 == k) with
    | true =>
      have hhead : (if (p.1 == k) = true then (k, v) else p) = (k, v) := if_pos hp
      rw [List.map_cons, hhead, List.find?_cons, List.find?_cons, hp, beq_self_eq_true]
      rfl
    | false =>
      have hhead : (if (p.1 == k) = true then (k, v) else p) = p := if_neg (by simp [hp])
      rw [List.map_cons, hhead, List.find?_cons, List.find?_cons, hp]
      exact ih

lemma find?_update_ne {o : List (String × String)} {k k' : String} (v : String)
    (h : k' ≠ k) :
    (o.map (fun p => if p.1 == k then (k, v) else p)).find? (fun p => p.1 == k') =
      o.find? (fun p => p.1 == k') := by
  induction o with
  | nil => rfl
  | cons p t ih =>
    cases hp : (p.1 == k) with
    | true =>
      have hhead : (if (p.1 == k) = true then (k, v) else p) = (k, v) := if_pos hp
      have h1 : (k == k') = false := beq_eq_false_iff_ne.mpr (Ne.symm h)
      have h2 : (p.1 == k') = false := by
        rw [beq_eq_false_iff_ne, eq_of_beq hp]
        exact Ne.symm h
      rw [List.map_cons, hhead, List.find?_cons, List.find?_cons, h1, h2]
      exact ih
    | false =>
      have hhead : (if (p.1 == k) = true then (k, v) else p) = p := if_neg (by simp [hp])
      rw [List.map_cons, hhead, List.find?_cons, List.find?_cons]
      cases hpk : (p.1 == k') with
      | true => rfl
      | false => exact ih

lemma jsLookup_objInsert_self (o : FieldRec) (k v : String) :
    jsLookup (objInsert o k v) k = some v := by
  unfold objInsert jsLookup
  by_cases hany : o.any (fun p => p.1 == k) = true
  · rw [if_pos hany, find?_update_eq]
    obtain ⟨p, hp, hpk⟩ := List.any_eq_true.mp hany
    have hsome : (o.find? (fun p => p.1 == k)).isSome := by
      rw [List.find?_isSome]
      exact ⟨p, hp, hpk⟩
    cases hfind : o.find? (fun p => p.1 == k) with
    | none => simp [hfind] at hsome
    | some q => rfl
  · rw [if_neg hany, List.find?_append]
    rw [Bool.not_eq_true] at hany
    have hnone : o.find? (fun p => p.1 == k) = none := by
      rw [List.find?_eq_none]
      intro p hp
      simp [List.any_eq_false.mp hany p hp]
    rw [hnone]
    simp [List.find?_cons]

lemma jsLookup_objInsert_ne (o : FieldRec) {k k' : String} (v : String)
    (h : k' ≠ k) : jsLookup (objInsert o k v) k' = jsLookup o k' := by
  unfold objInsert jsLookup
  by_cases hany : o.any (fun p => p.1 == k) = true
  · rw [if_pos hany, find?_update_ne v h]
  · rw [if_neg hany, List.find?_append]
    have hone : List.find? (fun p => p.1 == k') [(k, v)] = none := by
      simp [List.find?_cons, beq_eq_false_iff_ne.mpr (Ne.symm h)]
    rw [hone]
    cases o.find? (fun p => p.1 == k') <;> rfl

lemma keysOf_obj_fold_nodup (r : List String) :
    ∀ (ps : List (Nat × String)) (o : FieldRec), (keysOf o).Nodup →
      (keysOf (ps.foldl (fun obj p => objInsert obj p.2 (r.getD p.1 "")) o)).Nodup := by
  intro ps
  induction ps with
  | nil => intro o h; exact h
  | cons q t ih =>
    intro o h
    exact ih _ (nodup_keysOf_objInsert h)

lemma mem_keysOf_obj_fold (r : List String) :
    ∀ (ps : List (Nat × String)) (o : FieldRec) (a : String),
      a ∈ keysOf (ps.foldl (fun obj p => objInsert obj p.2 (r.getD p.1 "")) o) ↔
        a ∈ keysOf o ∨ ∃ p ∈ ps, p.2 = a := by
  intro ps
  induction ps with
  | nil => intro o a; simp
  | cons q t ih =>
    intro o a
    simp only [List.foldl_cons]
    rw [ih]
    rw [mem_keysOf_objInsert]
    constructor
    · rintro ((h | rfl) | ⟨p, hp, rfl⟩)
      · exact Or.inl h
      · exact Or.inr ⟨q, by simp⟩
      · exact Or.inr ⟨p, by simp [hp]⟩
    · rintro (h | ⟨p, hp, rfl⟩)
      · exact Or.inl (Or.inl h)
      · rcases List.mem_cons.mp hp with rfl | hp'
        · exact Or.inl (Or.inr rfl)
        · exact Or.inr ⟨p, hp', rfl⟩

lemma jsLookup_obj_fold (r : List String) (o : FieldRec)
    (ps : List (Nat × String)) :
    ∀ k : String, (∃ p ∈ ps, p.2 = k) →
      ∃ i, (i, k) ∈ ps ∧
        jsLookup (ps.foldl (fun obj p => objInsert obj p.2 (r.getD p.1 "")) o) k =
          some (r.getD i "") := by
  induction ps using List.reverseRecOn with
  | nil => intro k hk; simp at hk
  | append_singleton t q ih =>
    intro k hk
    rw [List.foldl_append, List.foldl_cons, List.foldl_nil]
    by_cases hkq : k = q.2
    · refine ⟨q.1, ?_, ?_⟩
      · refine List.mem_append.mpr (Or.inr ?_)
        rw [hkq, Prod.mk.eta]
        simp
      · rw [hkq]
        exact jsLookup_objInsert_self _ _ _
    · obtain ⟨p, hp, hpk⟩ := hk
      have hpt : p ∈ t := by
        rcases List.mem_append.mp hp with h | h
        · exact h
        · simp only [List.mem_singleton] at h
          subst h
          exact absurd hpk.symm hkq
      obtain ⟨i, hi, hlook⟩ := ih k ⟨p, hpt, hpk⟩
      refine ⟨i, List.mem_append.mpr (Or.inl hi), ?_⟩
      rw [jsLookup_objInsert_ne _ _ hkq]
      exact hlook

lemma nodup_keysOf_buildObj (headers r : List String) :
    (keysOf (buildObj headers r)).Nodup :=
  keysOf_obj_fold_nodup r headers.enum [] List.nodup_nil

lemma mem_of_enum {l : List String} {p : Nat × String} (h : p ∈ l.enum) :
    p.2 ∈ l := by
  rw [List.mem_enum_iff_getElem?] at h
  rcases List.getElem?_eq_some.mp h with ⟨hlt, heq⟩
  rw [← heq]
  exact List.getElem_mem hlt

lemma mem_keysOf_buildObj {headers r : List String} {a : String} :
    a ∈ keysOf (buildObj headers r) ↔ a ∈ headers := by
  unfold buildObj
  rw [mem_keysOf_obj_fold]
  constructor
  · rintro (h | ⟨p, hp, rfl⟩)
    · simp [keysOf] at h
    · exact mem_of_enum hp
  · intro h
    obtain ⟨n, hn, rfl⟩ := List.getElem_of_mem h
    refine Or.inr ⟨(n, headers[n]), ?_, rfl⟩
    rw [List.mem_enum_iff_getElem?]
    exact List.getElem?_eq_getElem hn

lemma headerNames_length (row : List String) :
    (headerNames row).length = row.length := by
  unfold headerNames
  exact List.length_mapIdx

lemma headerNames_getD (row : List String) (i : Nat) (h : i < row.length) :
    (headerNames row).getD i "" =
      if row.getD i "" = "" then "col_" ++ toString (i + 1)
      else row.getD i "" := by
  rw [List.getD_eq_getElem?_getD, List.getD_eq_getElem?_getD]
  unfold headerNames
  rw [List.mapIdx_eq_enum_map, List.getElem?_map, List.getElem?_enum]
  rw [List.getElem?_eq_getElem h]
  simp [Function.uncurry]

lemma string_append_ne_empty (s : String) : "col_" ++ s ≠ "" := by
  intro h
  have := congrArg String.data h
  rw [String.data_append] at this
  simp at this

lemma mem_headerNames_ne_empty {row : List String} {a : String}
    (h : a ∈ headerNames row) : a ≠ "" := by
  unfold headerNames at h
  rw [List.mapIdx_eq_enum_map] at h
  obtain ⟨q, _, rfl⟩ := List.mem_map.mp h
  by_cases hq : q.2 = ""
  · simp only [Function.uncurry, hq, if_pos]
    exact string_append_ne_empty _
  · simp only [Function.uncurry, hq, if_neg, if_false]
    exact hq

lemma tableRows_header {m : List (List String)}
    (hcc : colCount m ≠ 2) (hlen : 2 ≤ m.length) :
    tableRows m = headerRecords (normalizeMatrix m) := by
  have hl : (normalizeMatrix m).length = m.length := by
    unfold normalizeMatrix
    rw [List.length_map]
  unfold tableRows
  rw [if_neg hcc, if_pos (by rw [hl]; exact hlen)]

/-! ### Claim C6 -/

/-- Claim C6 counterexample: the `col_N` substitution does NOT guarantee
that distinct columns get distinct keys — two non-empty header cells with
the same text survive substitution unchanged, so in
`[["A","A","B"],["x","y","z"]]` columns 0 and 1 share the key `"A"` and
the emitted record keeps only the later column's value (two entries for
three columns). -/
theorem C6_counterexample :
    headerNames ["A", "A", "B"] = ["A", "A", "B"] ∧
    ¬ (headerNames ["A", "A", "B"]).Nodup ∧
    tableRows [["A", "A", "B"], ["x", "y", "z"]] =
      [[("A", "y"), ("B", "z")]] := by
  refine ⟨rfl, by decide, rfl⟩

/-- Claim C6 (amended): in the header-table branch every emitted record
has pairwise-distinct, non-empty keys as a JS object (a later column with
an already-used header name overwrites the earlier value rather than
adding a second key); the `col_N` substitution guarantees non-emptiness,
but distinct columns can still collapse onto one shared key. -/
theorem C6_amended_holds (m : List (List String))
    (hcc : colCount m ≠ 2) (hlen : 2 ≤ m.length) :
    ∀ rec ∈ tableRows m, (keysOf rec).Nodup ∧ ∀ k ∈ keysOf rec, k ≠ "" := by
  intro rec hrec
  rw [tableRows_header hcc hlen] at hrec
  unfold headerRecords at hrec
  obtain ⟨r, _, rfl⟩ := List.mem_map.mp hrec
  refine ⟨nodup_keysOf_buildObj _ _, ?_⟩
  intro k hk
  exact mem_headerNames_ne_empty (mem_keysOf_buildObj.mp hk)

/-- Witness for C6: the spec's `col_1` example record has distinct,
non-empty keys. -/
theorem C6_witness :
    (keysOf [("col_1", "TR"), ("Time", "10:10"), ("Room", "301")]).Nodup ∧
    ∀ k ∈ keysOf [("col_1", "TR"), ("Time", "10:10"), ("Room", "301")], k ≠ "" :=
  C6_amended_holds [["", "Time", "Room"], ["TR", "10:10", "301"]]
    (by decide) (by decide) _ (by decide)

/-! ### Claim C5 -/

/-- Claim C5 (confirmed): for a rectangular matrix with `c ≥ 3` columns
and at least two rows, one record is emitted per row after the first; the
header names come from row 0 with empty cells replaced by `col_(idx+1)`;
record `j` is the JS object built by assigning, in column order, header
name `idx` the value of row `j+1` at column `idx`; looking up any header
name in record `j` returns that row's cell at a column bearing exactly
that name; and the spec's example evaluates as claimed. -/
theorem C5_holds (m : List (List String)) (c : Nat)
    (hrect : Rectangular c m) (hc3 : 3 ≤ c) (hlen : 2 ≤ m.length) :
    (tableRows m).length = m.length - 1 ∧
    (∀ idx, idx < c →
      (headerNames (m.headD [])).getD idx "" =
        if (m.headD []).getD idx "" = "" then "col_" ++ toString (idx + 1)
        else (m.headD []).getD idx "") ∧
    (∀ j, j + 1 < m.length →
      (tableRows m).getD j [] =
        buildObj (headerNames (m.headD [])) (m.getD (j + 1) [])) ∧
    (∀ j, j + 1 < m.length → ∀ idx, idx < c →
      ∃ idx2, idx2 < c ∧
        (headerNames (m.headD [])).getD idx2 "" =
          (headerNames (m.headD [])).getD idx "" ∧
        jsLookup ((tableRows m).getD j [])
            ((headerNames (m.headD [])).getD idx "") =
          some ((m.getD (j + 1) []).getD idx2 "")) ∧
    tableRows [["Day", "Time", "Room"], ["TR", "10:10-11:25", "301"]] =
      [[("Day", "TR"), ("Time", "10:10-11:25"), ("Room", "301")]] := by
  have hne : m ≠ [] := List.ne_nil_of_length_pos (by omega)
  obtain ⟨r0, rest, rfl⟩ := List.exists_cons_of_ne_nil hne
  have hcc : colCount (r0 :: rest) = c := colCount_of_rect hne hrect
  have hrow0 : r0.length = c := hrect r0 (by simp)
  have ht : tableRows (r0 :: rest) =
      rest.map (fun r => buildObj (headerNames r0) r) := by
    rw [tableRows_header (by omega) hlen, normalizeMatrix_of_rect hne hrect]
    rfl
  have hrec : ∀ j, j + 1 < (r0 :: rest).length →
      (tableRows (r0 :: rest)).getD j [] =
        buildObj (headerNames r0) (rest.getD j []) := by
    intro j hj
    have hjr : j < rest.length := by
      simp only [List.length_cons] at hj
      omega
    rw [ht, List.getD_eq_getElem _ _ (by rw [List.length_map]; exact hjr),
      List.getElem_map, List.getD_eq_getElem rest [] hjr]
  refine ⟨?_, ?_, ?_, ?_, rfl⟩
  · rw [ht, List.length_map]
    simp
  · intro idx hidx
    show (headerNames r0).getD idx "" = _
    rw [headerNames_getD r0 idx (by rw [hrow0]; exact hidx)]
    rfl
  · intro j hj
    rw [hrec j hj]
    rfl
  · intro j hj idx hidx
    have hhlen : (headerNames r0).length = c := by
      rw [headerNames_length, hrow0]
    have hidx' : idx < (headerNames r0).length := by rw [hhlen]; exact hidx
    have hpre : ∃ p ∈ (headerNames r0).enum,
        p.2 = (headerNames r0).getD idx "" := by
      refine ⟨(idx, (headerNames r0).get ⟨idx, hidx'⟩), ?_, ?_⟩
      · rw [List.mem_enum_iff_getElem?]
        simp [List.getElem?_eq_getElem hidx']
      · rw [List.getD_eq_getElem _ _ hidx']
        rfl
    obtain ⟨i, himem, hlook⟩ :=
      jsLookup_obj_fold (rest.getD j []) [] (headerNames r0).enum _ hpre
    rw [List.mem_enum_iff_getElem?] at himem
    obtain ⟨hilt, hieq⟩ := List.getElem?_eq_some.mp himem
    refine ⟨i, by rw [← hhlen]; exact hilt, ?_, ?_⟩
    · show (headerNames r0).getD i "" = (headerNames r0).getD idx ""
      rw [List.getD_eq_getElem _ _ hilt, hieq]
    · show jsLookup ((tableRows (r0 :: rest)).getD j [])
          ((headerNames r0).getD idx "") =
        some (((r0 :: rest).getD (j + 1) []).getD i "")
      rw [hrec j hj]
      exact hlook

/-- Witness for C5: the spec's header-table example. -/
theorem C5_witness :
    tableRows [["Day", "Time", "Room"], ["TR", "10:10-11:25", "301"]] =
      [[("Day", "TR"), ("Time", "10:10-11:25"), ("Room", "301")]] :=
  (C5_holds [["Day", "Time", "Room"], ["TR", "10:10-11:25", "301"]] 3
    (by decide) (by decide) (by decide)).2.2.2.2

/-! ### Lemmas about link discovery -/

lemma stripFragment_no_hash (v : String) :
    ∀ ch ∈ (stripFragment v).data, ch ≠ '#' := by
  intro ch hch
  unfold stripFragment at hch
  have := List.mem_takeWhile_imp hch
  simpa using this

lemma mem_grab {resolve : String → Option String} {tCode : String}
    {hrefs : List String} {u : String} (hu : u ∈ grab resolve tCode hrefs) :
    ∃ h ∈ hrefs, linkFilter tCode h = true ∧
      ∃ v, resolve h = some v ∧ u = stripFragment v := by
  unfold grab at hu
  rw [mem_jsSetFrom, List.mem_filter] at hu
  obtain ⟨hmem, hne⟩ := hu
  obtain ⟨h, hh, heq⟩ := List.mem_map.mp hmem
  rw [List.mem_filter] at hh
  refine ⟨h, hh.1, hh.2, ?_⟩
  cases hres : resolve h with
  | none =>
    rw [hres] at heq
    simp only at heq
    rw [← heq] at hne
    simp at hne
  | some v =>
    rw [hres] at heq
    exact ⟨v, rfl, heq.symm⟩

lemma mem_runCtx {tCode : String} {ctx : Ctx} {u : String}
    (hu : u ∈ runCtx tCode ctx) :
    ∃ pr, ctx = some pr ∧ u ∈ grab pr.1 tCode pr.2 := by
  cases ctx with
  | none => simp [runCtx] at hu
  | some pr => exact ⟨pr, rfl, hu⟩

lemma mem_discover {tCode : String} {mainCtx : Ctx} {frameCtxs : List Ctx}
    {u : String} :
    u ∈ discoverCourseLinks tCode mainCtx frameCtxs ↔
      u ∈ runCtx tCode mainCtx ∨ ∃ f ∈ frameCtxs, u ∈ runCtx tCode f := by
  unfold discoverCourseLinks
  rw [mem_jsSetFrom, List.mem_append, List.mem_flatten]
  constructor
  · rintro (h | ⟨l, hl, hu⟩)
    · exact Or.inl h
    · obtain ⟨f, hf, rfl⟩ := List.mem_map.mp hl
      exact Or.inr ⟨f, hf, hu⟩
  · rintro (h | ⟨f, hf, hu⟩)
    · exact Or.inl h
    · exact Or.inr ⟨runCtx tCode f, List.mem_map.mpr ⟨f, hf, rfl⟩, hu⟩

/-! ### Claim C7 -/

/-- Claim C7 counterexample: a href that carries a DIFFERENT term's
delimited segment (`-20249-`) as well as the target's is NOT excluded —
the filter only demands the presence of the target markers in the raw
href, so this href reaches the output even though it contains another
term's delimited segment and matches the subject path prefix. -/
theorem C7_counterexample :
    jsIncludes "/subj/COMS/W4701-20253-001/x-20249-y" "-20249-" = true ∧
    jsIncludes "/subj/COMS/W4701-20253-001/x-20249-y" "/subj/COMS/" = true ∧
    discoverCourseLinks "20253"
        (some (fun s => some s, ["/subj/COMS/W4701-20253-001/x-20249-y"])) [] =
      ["/subj/COMS/W4701-20253-001/x-20249-y"] := by
  refine ⟨by decide, by decide, rfl⟩

/-- Claim C7 (amended): every URL in the output of the extraction
predicate is the fragment-stripped resolution of a collected href that
contains both the subject path marker `/subj/COMS/` and the target term's
delimited marker `-<tCode>-`; a href lacking the target term's delimited
marker — in particular one carrying only a different term's marker — is
excluded even if it matches the subject path prefix. -/
theorem C7_amended_holds (resolve : String → Option String) (tCode : String)
    (hrefs : List String) :
    (∀ u ∈ grab resolve tCode hrefs,
      ∃ h ∈ hrefs, jsIncludes h "/subj/COMS/" = true ∧
        jsIncludes h ("-" ++ tCode ++ "-") = true ∧
        ∃ v, resolve h = some v ∧ u = stripFragment v) ∧
    ((∀ h ∈ hrefs, jsIncludes h ("-" ++ tCode ++ "-") = false) →
      grab resolve tCode hrefs = []) := by
  constructor
  · intro u hu
    obtain ⟨h, hh, hflt, v, hres, hstrip⟩ := mem_grab hu
    unfold linkFilter at hflt
    rw [Bool.and_eq_true] at hflt
    exact ⟨h, hh, hflt.1, hflt.2, v, hres, hstrip⟩
  · intro hall
    unfold grab
    have hfil : hrefs.filter (fun href => linkFilter tCode href) = [] := by
      rw [List.filter_eq_nil_iff]
      intro h hh
      unfold linkFilter
      rw [Bool.and_eq_true]
      rintro ⟨-, h2⟩
      rw [hall h hh] at h2
      exact Bool.false_ne_true h2
    rw [hfil]
    rfl

/-- Witness for C7: hrefs carrying only the term `20249` marker produce
no output for term `20253`. -/
theorem C7_witness :
    grab (fun s => some s) "20253" ["/subj/COMS/c-20249-d", "/elsewhere"] = [] :=
  (C7_amended_holds (fun s => some s) "20253"
    ["/subj/COMS/c-20249-d", "/elsewhere"]).2 (by decide)

/-! ### Claim C8 -/

/-- Claim C8 (confirmed): the discovery output is duplicate-free; every
output URL carries no `'#'` (fragment stripped) and arises from some
successfully evaluated context as the fragment-stripped resolution,
against that context's own resolver, of a filtered href — so two contexts
returning the same URL (with and without a trailing fragment) contribute
one entry; and a href whose resolution fails (unparseable URL) is
dropped. -/
theorem C8_holds (tCode : String) (mainCtx : Ctx) (frameCtxs : List Ctx) :
    (discoverCourseLinks tCode mainCtx frameCtxs).Nodup ∧
    (∀ u ∈ discoverCourseLinks tCode mainCtx frameCtxs,
      (∀ ch ∈ u.data, ch ≠ '#') ∧
      ∃ ctx ∈ mainCtx :: frameCtxs, ∃ pr, ctx = some pr ∧
        ∃ h ∈ pr.2, linkFilter tCode h = true ∧
          ∃ v, pr.1 h = some v ∧ u = stripFragment v) ∧
    (∀ (resolve : String → Option String) (h : String), resolve h = none →
      grab resolve tCode [h] = []) := by
  refine ⟨jsSetFrom_nodup _, ?_, ?_⟩
  · intro u hu
    have hctx : ∃ ctx ∈ mainCtx :: frameCtxs, u ∈ runCtx tCode ctx := by
      rcases mem_discover.mp hu with h | ⟨f, hf, h⟩
      · exact ⟨mainCtx, by simp, h⟩
      · exact ⟨f, by simp [hf], h⟩
    obtain ⟨ctx, hctxmem, hu'⟩ := hctx
    obtain ⟨pr, rfl, hgrab⟩ := mem_runCtx hu'
    obtain ⟨h, hh, hflt, v, hres, hstrip⟩ := mem_grab hgrab
    refine ⟨?_, some pr, hctxmem, pr, rfl, h, hh, hflt, v, hres, hstrip⟩
    rw [hstrip]
    exact stripFragment_no_hash v
  · intro resolve h hres
    cases hl : linkFilter tCode h with
    | true => simp [grab, jsSetFrom, hl, hres]
    | false => simp [grab, jsSetFrom, hl]

/-- Witness for C8: a href whose resolution fails contributes nothing. -/
theorem C8_witness :
    grab (fun _ => (none : Option String)) "20253" ["/subj/COMS/a-20253-b"] = [] :=
  (C8_holds "20253" none []).2.2 (fun _ => none) "/subj/COMS/a-20253-b" rfl

/-! ### Claim C9 -/

/-- Claim C9 (confirmed): a context whose predicate evaluation fails
(modelled `none`) contributes the empty link set; inserting a failed
context changes nothing; and every link gathered from the main context or
from any frame still reaches the output — the pass is a total function
and is not aborted by a failure. -/
theorem C9_holds (tCode : String) (mainCtx : Ctx) (frameCtxs : List Ctx) :
    runCtx tCode none = [] ∧
    discoverCourseLinks tCode mainCtx (none :: frameCtxs) =
      discoverCourseLinks tCode mainCtx frameCtxs ∧
    (∀ u ∈ runCtx tCode mainCtx,
      u ∈ discoverCourseLinks tCode mainCtx frameCtxs) ∧
    (∀ f ∈ frameCtxs, ∀ u ∈ runCtx tCode f,
      u ∈ discoverCourseLinks tCode mainCtx frameCtxs) := by
  refine ⟨rfl, ?_, ?_, ?_⟩
  · unfold discoverCourseLinks
    rw [List.map_cons]
    rfl
  · intro u hu
    exact mem_discover.mpr (Or.inl hu)
  · intro f hf u hu
    exact mem_discover.mpr (Or.inr ⟨f, hf, hu⟩)

/-- Witness for C9: with a failed frame present, a link found by another
frame is still in the output. -/
theorem C9_witness :
    "/subj/COMS/a-20253-b" ∈
      discoverCourseLinks "20253" none
        [none, some (fun s => some s, ["/subj/COMS/a-20253-b"])] :=
  (C9_holds "20253" none
      [none, some (fun s => some s, ["/subj/COMS/a-20253-b"])]).2.2.2
    (some (fun s => some s, ["/subj/COMS/a-20253-b"]))
    (List.mem_cons_of_mem _ (List.mem_cons_self _ _))
    "/subj/COMS/a-20253-b" (by decide)
